import Mathlib

/-!
Verification development for the pepper editor core: the command-language
tokenizer, compiler and virtual machine of `src/command_next.rs`, the command
history of `src/command.rs`, the key parser of `src/client_event.rs`, the mode
dispatcher of `lib/mode.rs` and the command mode of `lib/mode/command.rs`.
Rust byte strings are embedded as `List Nat` (one entry per byte), `Vec` as a
Lean `List` in the same order (push appends at the end, pop removes the last
element, truncate keeps a prefix), and machine integers as `Nat` with an
explicit `% 2 ^ w` at every narrowing `as` cast that is not already bounded by
a preceding check.
-/

namespace Pepper

/-- Modelled from the spec: `buffer_position.rs` is not part of the sources.
Section 3 of the spec defines a source position as the pair
`(line_index, column_byte_index)`, zero-based; the tokenizer mutates exactly
these two fields. -/
structure BufferPosition where
  line_index : Nat
  column_byte_index : Nat
deriving DecidableEq, Repr

/-- `BufferPosition::zero()`. -/
def BufferPosition.zero : BufferPosition := ⟨0, 0⟩

/-- Byte list of an ASCII string (used only on ASCII sources, where it agrees
with the UTF-8 bytes the Rust code operates on). -/
def asciiBytes (s : String) : List Nat :=
  s.data.map Char.toNat

/-- `editor_utils::hash_bytes`: FNV-1a over `u64`
(initial `0xcbf29ce484222325`, multiplier `0x100000001b3`, wrapping mul). -/
def hashBytes (bytes : List Nat) : Nat :=
  bytes.foldl (fun h b => ((h ^^^ b) * 0x100000001b3) % 2 ^ 64) 0xcbf29ce484222325

/-- `command_next::CommandTokenKind`. -/
inductive CommandTokenKind where
  | Literal
  | QuotedLiteral
  | Flag
  | Equals
  | Binding
  | OpenCurlyBrackets
  | CloseCurlyBrackets
  | OpenParenthesis
  | CloseParenthesis
  | EndOfLine
  | EndOfSource
deriving DecidableEq, Repr

/-- `command_next::CommandErrorKind`. -/
inductive CommandErrorKind where
  | UnterminatedQuotedLiteral
  | InvalidFlagName
  | InvalidBindingName
  | AstTooLong
  | TooManyMacroCommands
  | TooManyLiterals
  | LiteralTooLong
  | ExpectedToken (kind : CommandTokenKind)
  | ExpectedMacroDefinition
  | ExpectedStatement
  | ExpectedExpression
  | InvalidMacroName
  | InvalidLiteralEscaping
  | TooManyParameters
  | TooManyBindings
  | UndeclaredBinding
  | NoSuchCommand
  | NoSuchFlag
  | WrongNumberOfArgs
  | TooManyFlags
  | CouldNotSourceFile
  | CommandAlreadyExists
  | CommandDoesNotAcceptBang
  | TooFewArguments
  | TooManyArguments
deriving DecidableEq, Repr

/-- `command_next::CommandError` (`SourcePathHandle` embedded as `Nat`). -/
structure CommandError where
  kind : CommandErrorKind
  source : Nat
  position : BufferPosition
deriving DecidableEq, Repr

/-- `command_next::CommandToken`; the byte range is kept as two fields. -/
structure CommandToken where
  kind : CommandTokenKind
  rangeStart : Nat
  rangeEnd : Nat
  position : BufferPosition
deriving DecidableEq, Repr

/-- `CommandToken::default()`: `EndOfSource`, range `0..0`, position zero. -/
def CommandToken.default : CommandToken :=
  ⟨.EndOfSource, 0, 0, BufferPosition.zero⟩

/-- `command_next::CommandTokenizer`: source bytes plus current byte index and
position. -/
structure TokState where
  source : List Nat
  index : Nat
  position : BufferPosition
deriving DecidableEq, Repr

/-- `CommandTokenizer::new`. -/
def TokState.new (source : List Nat) : TokState :=
  ⟨source, 0, BufferPosition.zero⟩

/-- Identifier bytes: `a..=z | A..=Z | 0..=9 | b'_' | b'-'`
(`consume_identifier`'s character class; non-ASCII bytes never match). -/
def isIdentByte (b : Nat) : Bool :=
  (97 ≤ b && b ≤ 122) || (65 ≤ b && b ≤ 90) || (48 ≤ b && b ≤ 57) || b == 95 || b == 45

/-- Space, tab or carriage return: the bytes the tokenizer's outer loop
skips. -/
def isSkipByte (b : Nat) : Bool :=
  b == 32 || b == 9 || b == 13

/-- Space, tab, carriage return or newline: the bytes consumed by the
`EndOfLine` run. -/
def isEolRunByte (b : Nat) : Bool :=
  isSkipByte b || b == 10

/-- Bytes that terminate a bare `Literal` token:
`b'{' | b'}' | b'(' | b')' | b' ' | b'\t' | b'\r' | b'\n'`. -/
def isLiteralBreakByte (b : Nat) : Bool :=
  b == 123 || b == 125 || b == 40 || b == 41 || b == 32 || b == 9 || b == 13 || b == 10

/-- Position update of the `EndOfLine` loop: a newline bumps the line and
resets the column, any other consumed byte bumps the column. -/
def eolAdvance (run : List Nat) (pos : BufferPosition) : BufferPosition :=
  run.foldl
    (fun p b =>
      if b = 10 then ⟨p.line_index + 1, 0⟩ else ⟨p.line_index, p.column_byte_index + 1⟩)
    pos

/-- The quoted-literal scan loop, starting just after the opening delimiter.
Returns the number of bytes consumed up to and including the closing
delimiter, plus the final position; `none` is the unterminated case (also when
the `\X` skip of two bytes runs past the end of input, after which the Rust
loop sees `index >= len`). -/
def quotedScanGo (delim : Nat) (pos : BufferPosition) :
    List Nat → Option (Nat × BufferPosition)
  | [] => none
  | b :: rest =>
    if b = 92 then
      match rest with
      | [] => none
      | _ :: rest2 =>
        match quotedScanGo delim ⟨pos.line_index, pos.column_byte_index + 2⟩ rest2 with
        | none => none
        | some (n, p) => some (n + 2, p)
    else if b = 10 then
      match quotedScanGo delim ⟨pos.line_index + 1, 0⟩ rest with
      | none => none
      | some (n, p) => some (n + 1, p)
    else
      let pos' : BufferPosition := ⟨pos.line_index, pos.column_byte_index + 1⟩
      if b = delim then some (1, pos')
      else
        match quotedScanGo delim pos' rest with
        | none => none
        | some (n, p) => some (n + 1, p)

/-- `CommandTokenizer::next`. The leading whitespace skip is computed with
`takeWhile` (the loop advances one byte per iteration over exactly this
prefix). -/
def tokNext (st : TokState) : Except CommandError (CommandToken × TokState) :=
  let src := st.source
  let wsLen := ((src.drop st.index).takeWhile isSkipByte).length
  let i := st.index + wsLen
  let pos : BufferPosition :=
    ⟨st.position.line_index, st.position.column_byte_index + wsLen⟩
  match src.get? i with
  | none =>
    .ok (⟨.EndOfSource, src.length, src.length, pos⟩, ⟨src, i, pos⟩)
  | some b =>
    if b = 10 then
      let run := (src.drop i).takeWhile isEolRunByte
      let i' := i + run.length
      let pos' := eolAdvance run pos
      .ok (⟨.EndOfLine, i, i', pos⟩, ⟨src, i', pos'⟩)
    else if b = 34 ∨ b = 39 then
      match quotedScanGo b ⟨pos.line_index, pos.column_byte_index + 1⟩ (src.drop (i + 1)) with
      | none => .error ⟨.UnterminatedQuotedLiteral, 0, pos⟩
      | some (n, pos') =>
        let i' := i + 1 + n
        .ok (⟨.QuotedLiteral, i, i', pos⟩, ⟨src, i', pos'⟩)
    else if b = 45 then
      let runLen := ((src.drop (i + 1)).takeWhile isIdentByte).length
      let i' := i + 1 + runLen
      if runLen = 0 then .error ⟨.InvalidFlagName, 0, pos⟩
      else
        .ok (⟨.Flag, i, i', pos⟩,
          ⟨src, i', ⟨pos.line_index, pos.column_byte_index + 1 + runLen⟩⟩)
    else if b = 36 then
      let runLen := ((src.drop (i + 1)).takeWhile isIdentByte).length
      let i' := i + 1 + runLen
      if runLen = 0 then .error ⟨.InvalidBindingName, 0, pos⟩
      else
        .ok (⟨.Binding, i, i', pos⟩,
          ⟨src, i', ⟨pos.line_index, pos.column_byte_index + 1 + runLen⟩⟩)
    else if b = 61 then
      .ok (⟨.Equals, i, i + 1, pos⟩,
        ⟨src, i + 1, ⟨pos.line_index, pos.column_byte_index + 1⟩⟩)
    else if b = 123 then
      .ok (⟨.OpenCurlyBrackets, i, i + 1, pos⟩,
        ⟨src, i + 1, ⟨pos.line_index, pos.column_byte_index + 1⟩⟩)
    else if b = 125 then
      .ok (⟨.CloseCurlyBrackets, i, i + 1, pos⟩,
        ⟨src, i + 1, ⟨pos.line_index, pos.column_byte_index + 1⟩⟩)
    else if b = 40 then
      .ok (⟨.OpenParenthesis, i, i + 1, pos⟩,
        ⟨src, i + 1, ⟨pos.line_index, pos.column_byte_index + 1⟩⟩)
    else if b = 41 then
      .ok (⟨.CloseParenthesis, i, i + 1, pos⟩,
        ⟨src, i + 1, ⟨pos.line_index, pos.column_byte_index + 1⟩⟩)
    else
      let restLen := ((src.drop (i + 1)).takeWhile (fun c => !(isLiteralBreakByte c))).length
      let i' := i + 1 + restLen
      .ok (⟨.Literal, i, i', pos⟩,
        ⟨src, i', ⟨pos.line_index, pos.column_byte_index + 1 + restLen⟩⟩)

/-- Run the tokenizer to the end of input, collecting every produced token and
the final `EndOfSource` token. `none` means the fuel ran out. -/
def tokenizeAllGo (fuel : Nat) (st : TokState) (acc : List CommandToken) :
    Option (Except CommandError (List CommandToken)) :=
  match fuel with
  | 0 => none
  | fuel + 1 =>
    match tokNext st with
    | .error e => some (.error e)
    | .ok (t, st') =>
      if t.kind = .EndOfSource then some (.ok (acc ++ [t]))
      else tokenizeAllGo fuel st' (acc ++ [t])

/-- Byte slice `source[start..stop]`. -/
def sliceBytes (source : List Nat) (start stop : Nat) : List Nat :=
  (source.drop start).take (stop - start)

/-- `command_next::Op`, exactly the declared enum (which notably has no
`PrepareStackFrame` variant even though `execute` matches on one). -/
inductive Op where
  | Return
  | Pop
  | PushStringLiteral (start : Nat) (len : Nat)
  | DuplicateAt (i : Nat)
  | PopAsFlag (i : Nat)
  | CallBuiltinCommand (index : Nat) (bang : Bool) (arg_count : Nat)
  | CallMacroCommand (i : Nat)
  | CallRequestCommand (i : Nat)
deriving DecidableEq, Repr

/-- `command_next::StackValue`: a byte range into the text arena. -/
structure StackValue where
  start : Nat
  stop : Nat
deriving DecidableEq, Repr

/-- `command_next::StackFlag`. -/
structure StackFlag where
  index : Nat
  start : Nat
  stop : Nat
deriving DecidableEq, Repr

/-- `command_next::StackFrame`. -/
structure StackFrame where
  op_index : Nat
  texts_len : Nat
  stack_len : Nat
deriving DecidableEq, Repr

/-- `command_next::SourceLocation`. -/
structure SourceLocation where
  source : Nat
  position : BufferPosition
deriving DecidableEq, Repr

/-- `command_next::VirtualMachine`, with exactly the declared fields (the
struct has no `prepared_frames` field even though `execute` uses one). -/
structure VirtualMachine where
  ops : List Op
  texts : List Nat
  value_stack : List StackValue
  flag_stack : List StackFlag
  frames : List StackFrame
  op_locations : List SourceLocation
deriving DecidableEq, Repr

/-- `VirtualMachine::default()`. -/
def VirtualMachine.empty : VirtualMachine :=
  ⟨[], [], [], [], [], []⟩

/-- The local state of `execute`: the VM plus the `op_index` and
`start_stack_index` loop variables. -/
structure ExecState where
  vm : VirtualMachine
  opIndex : Nat
  startStackIndex : Nat
deriving DecidableEq, Repr

/-- Outcome of one `Op::Return` dispatch: `finished` is the `Ok(None)` return
when the frame stack is empty, `panic` models a Rust panic (an `unwrap` on an
empty value stack, a malformed range where `value.end < value.start`, or a
`copy_within` source range past the end of the arena), and `next` carries the
state in which the loop continues. -/
inductive StepResult where
  | finished (s : ExecState)
  | panic
  | next (s : ExecState)
deriving DecidableEq, Repr

/-- Remove and return the last element (`Vec::pop`). -/
def popLast {α : Type} (l : List α) : Option (α × List α) :=
  match l.getLast? with
  | none => none
  | some x => some (x, l.dropLast)

/-- The `Op::Return` arm of `execute` (src lines 1077-1107).  When the popped
frame exists and the top value's text lies strictly above the frame's arena
watermark, the bytes are copied down to the watermark and the arena is
truncated to watermark plus length; the pushed value is
`{start: watermark, end: length}` exactly as the source writes it.  Otherwise
the arena is truncated to the watermark and the value is cloned unchanged.
In both cases the value stack is truncated to the frame's stack watermark
before the value is pushed, and `op_index` / `start_stack_index` are restored
from the frame. -/
def stepReturn (s : ExecState) : StepResult :=
  match popLast s.vm.frames with
  | none => .finished s
  | some (frame, frames') =>
    match s.vm.value_stack.getLast? with
    | none => .panic
    | some value =>
      if frame.texts_len < value.start then
        if value.stop < value.start ∨ s.vm.texts.length < value.stop then .panic
        else
          let returnTextStart := frame.texts_len
          let returnTextLen := value.stop - value.start
          let texts' :=
            s.vm.texts.take returnTextStart ++
              (s.vm.texts.drop value.start).take returnTextLen
          let value' : StackValue :=
            ⟨returnTextStart % 2 ^ 32, returnTextLen % 2 ^ 32⟩
          .next
            { vm :=
                { s.vm with
                  texts := texts'
                  value_stack := s.vm.value_stack.take frame.stack_len ++ [value']
                  frames := frames' }
              opIndex := frame.op_index
              startStackIndex := frame.stack_len }
      else
        .next
          { vm :=
              { s.vm with
                texts := s.vm.texts.take frame.texts_len
                value_stack := s.vm.value_stack.take frame.stack_len ++ [value]
                frames := frames' }
            opIndex := frame.op_index
            startStackIndex := frame.stack_len }

/-- The text a stack value denotes. -/
def valueText (vm : VirtualMachine) (v : StackValue) : List Nat :=
  sliceBytes vm.texts v.start v.stop

/-- `command_next::MacroCommand` (named `McrCommand` here). -/
structure McrCommand where
  name_hash : Nat
  op_start_index : Nat
  param_count : Nat
deriving DecidableEq, Repr

/-- `command_next::RequestCommand`. -/
structure RequestCommand where
  name_hash : Nat
deriving DecidableEq, Repr

/-- `command_next::BuiltinCommand` metadata; the `func` pointer and the
`completions` table play no role in compilation and are omitted.  Flag names
are byte strings without the leading dash, as in the static tables. -/
structure BuiltinCommandMeta where
  name_hash : Nat
  alias_hash : Nat
  hidden : Bool
  accepts_bang : Bool
  flags : List (List Nat)
deriving DecidableEq, Repr

/-- `command_next::CommandCollection`; `macro_commands` is the `mcrCommands`
field. -/
structure CommandCollection where
  builtinCommands : List BuiltinCommandMeta
  mcrCommands : List McrCommand
  requestCommands : List RequestCommand
deriving DecidableEq, Repr

/-- `CommandCollection::default()`: the builtin table is empty
(`&[] // TODO: reference builtin commands`). -/
def CommandCollection.empty : CommandCollection :=
  ⟨[], [], []⟩

/-- `command_next::CommandSource`. -/
inductive CommandSource where
  | Builtin (i : Nat)
  | Mcr (i : Nat)
  | Request (i : Nat)
deriving DecidableEq, Repr

/-- Index of the first list element satisfying `p` (`Iterator::position`). -/
def firstIdx {α : Type} (p : α → Bool) : List α → Option Nat
  | [] => none
  | x :: xs =>
    if p x then some 0
    else
      match firstIdx p xs with
      | some i => some (i + 1)
      | none => none

/-- `command_next::find_command`: scan macros, then requests, then builtins
(the latter matching on name or alias hash). -/
def findCommand (cc : CommandCollection) (h : Nat) : Option CommandSource :=
  match firstIdx (fun c => c.name_hash == h) cc.mcrCommands with
  | some i => some (.Mcr i)
  | none =>
    match firstIdx (fun c => c.name_hash == h) cc.requestCommands with
    | some i => some (.Request i)
    | none =>
      match firstIdx (fun c => c.name_hash == h || c.alias_hash == h) cc.builtinCommands with
      | some i => some (.Builtin i)
      | none => none

/-- Index of the LAST list element equal to `h` (`Iterator::rposition`), used
by `Compiler::find_binding_stack_index_from_previous_token`. -/
def rposition (h : Nat) : List Nat → Option Nat
  | [] => none
  | x :: xs =>
    match rposition h xs with
    | some i => some (i + 1)
    | none => if x == h then some 0 else none

/-- `command_next::Compiler`: tokenizer state, source handle, command
collection, virtual machine, the one-token lookahead, and the binding table
(the fixed 255-slot array plus `bindings_len` is embedded as the list of the
declared name hashes, whose length is `bindings_len`). -/
structure Compiler where
  tok : TokState
  sourceHandle : Nat
  commands : CommandCollection
  vm : VirtualMachine
  previousToken : CommandToken
  bindings : List Nat
deriving DecidableEq, Repr

/-- `Compiler::new`. -/
def Compiler.init (source : List Nat) (sourceHandle : Nat)
    (commands : CommandCollection) (vm : VirtualMachine) : Compiler :=
  ⟨TokState.new source, sourceHandle, commands, vm, CommandToken.default, []⟩

/-- Result of a compiler step.  Because the Rust compiler works through
`&mut`, mutations made before an error persist, so `err` carries the compiler
state at the point of the error.  `panic` models `todo!()` / `unreachable!()`
and `noFuel` marks recursion-fuel exhaustion (never reached on the concrete
runs below). -/
inductive CompRes where
  | ok (c : Compiler)
  | err (e : CommandError) (c : Compiler)
  | panic (c : Compiler)
  | noFuel
deriving DecidableEq, Repr

/-- Error-propagating sequencing for `CompRes` (the `?` operator). -/
def CompRes.andThen (r : CompRes) (f : Compiler → CompRes) : CompRes :=
  match r with
  | .ok c => f c
  | r => r

/-- `Compiler::previous_token_str` as bytes. -/
def tokenStr (c : Compiler) : List Nat :=
  sliceBytes c.tok.source c.previousToken.rangeStart c.previousToken.rangeEnd

/-- `Compiler::next_token`: pull one token, remembering it as
`previous_token`; a tokenizer error gets the compiler's source handle (its
internal tokenizer advance is unobservable past the error). -/
def nextTokenC (c : Compiler) : CompRes :=
  match tokNext c.tok with
  | .ok (t, tok') => .ok { c with tok := tok', previousToken := t }
  | .error e => .err { e with source := c.sourceHandle } c

/-- `Compiler::consume_token`. -/
def consumeTokenC (kind : CommandTokenKind) (c : Compiler) : CompRes :=
  if c.previousToken.kind = kind then nextTokenC c
  else .err ⟨.ExpectedToken kind, c.sourceHandle, c.previousToken.position⟩ c

/-- `Compiler::declare_binding_from_previous_token`. -/
def declareBindingC (c : Compiler) : CompRes :=
  if c.bindings.length < 255 then
    .ok { c with bindings := c.bindings ++ [hashBytes (tokenStr c)] }
  else
    .err ⟨.TooManyBindings, c.sourceHandle, c.previousToken.position⟩ c

/-- `Compiler::emit`: push the op and its source location in lockstep. -/
def emitOp (c : Compiler) (op : Op) (pos : BufferPosition) : Compiler :=
  { c with
    vm :=
      { c.vm with
        ops := c.vm.ops ++ [op]
        op_locations := c.vm.op_locations ++ [⟨c.sourceHandle, pos⟩] } }

/-- Replacement byte for the byte FOLLOWING a backslash in the quoted-literal
decode loop of `emit_push_literal_from_previous_token`.  The source's match
patterns are `b'\\'`, `b'\''`, `b'\"'`, `b'\n'`, `b'\r'`, `b'\t'`, `b'\0'`:
the last four are the CONTROL BYTES 0x0A, 0x0D, 0x09, 0x00 themselves, not
the letters `n`, `r`, `t`, `0`. -/
def escRepl (b : Nat) : Option Nat :=
  if b = 92 then some 92
  else if b = 39 then some 39
  else if b = 34 then some 34
  else if b = 10 then some 10
  else if b = 13 then some 13
  else if b = 9 then some 9
  else if b = 0 then some 0
  else none

/-- The quoted-literal escape-decode loop.  After `text.find('\\')` the code
advances `text` past the backslash only; the matched escape byte is pushed as
its replacement but NOT consumed, so it is scanned again by the next
iteration.  Returns the bytes pushed into the arena and whether the loop
completed without `InvalidLiteralEscaping` (on failure the prefix already
pushed is kept, as the arena is mutated in place). -/
def decodeGo : List Nat → List Nat × Bool
  | [] => ([], true)
  | b :: rest =>
    if b = 92 then
      match rest with
      | [] => ([], false)
      | b2 :: _ =>
        match escRepl b2 with
        | some r =>
          let (out, done) := decodeGo rest
          (r :: out, done)
        | none => ([], false)
    else
      let (out, done) := decodeGo rest
      (b :: out, done)

/-- `Compiler::emit_push_literal_from_previous_token`.  A bare literal's bytes
are appended verbatim; a quoted literal is stripped of its delimiters and run
through the escape-decode loop; any other token kind is `unreachable!()`.  A
decoded length above 255 is `LiteralTooLong`; the `start` field of the emitted
op is the `usize → u16` cast of the arena length before the append. -/
def emitPushLiteralC (c : Compiler) : CompRes :=
  let start := c.vm.texts.length
  let pos := c.previousToken.position
  match c.previousToken.kind with
  | .Literal =>
    let text := tokenStr c
    let texts' := c.vm.texts ++ text
    let len := texts'.length - start
    if 255 < len then
      .err ⟨.LiteralTooLong, c.sourceHandle, pos⟩ { c with vm := { c.vm with texts := texts' } }
    else
      .ok (emitOp { c with vm := { c.vm with texts := texts' } }
        (.PushStringLiteral (start % 2 ^ 16) len) pos)
  | .QuotedLiteral =>
    let inner :=
      sliceBytes c.tok.source (c.previousToken.rangeStart + 1) (c.previousToken.rangeEnd - 1)
    let (decoded, done) := decodeGo inner
    let texts' := c.vm.texts ++ decoded
    if !done then
      .err ⟨.InvalidLiteralEscaping, c.sourceHandle, pos⟩
        { c with vm := { c.vm with texts := texts' } }
    else
      let len := texts'.length - start
      if 255 < len then
        .err ⟨.LiteralTooLong, c.sourceHandle, pos⟩ { c with vm := { c.vm with texts := texts' } }
      else
        .ok (emitOp { c with vm := { c.vm with texts := texts' } }
          (.PushStringLiteral (start % 2 ^ 16) len) pos)
  | _ => .panic c

/-- The compilation phases of the mutually recursive helpers inside
`command_next::compile`: the top-level loop, `macro_definition` (split into
its entry checks, its parameter loop, and its body loop, carrying the values
computed between them), `statement`, `expression` (split into its
end-of-line skip and its dispatch), `command_call` (split into its entry and
its argument loop, carrying the resolved command, bang flag, argument count
and call position), and `expression_or_command_call`. -/
inductive Phase where
  | program
  | mcrDef
  | mcrParams (nameHash : Nat)
  | mcrBody (nameHash : Nat) (paramCount : Nat) (opStart : Nat)
  | stmt
  | expr
  | exprCore
  | call (ignoreEol : Bool)
  | callLoop (src : CommandSource) (bang : Bool) (argCount : Nat)
      (pos : BufferPosition) (ignoreEol : Bool)
  | exprOrCall
deriving DecidableEq, Repr

/-- The bytes of the keyword `macro`. -/
def mcrKeyword : List Nat := asciiBytes "macro"

/-- The bytes of the keyword `return`. -/
def retKeyword : List Nat := asciiBytes "return"

/-- The call op for a resolved command
(`CallBuiltinCommand` / `CallMacroCommand` / `CallRequestCommand`), with the
`usize → u8` / `usize → u16` casts of the command indices. -/
def mkCallOp (src : CommandSource) (bang : Bool) (argCount : Nat) : Op :=
  match src with
  | .Builtin i => .CallBuiltinCommand (i % 2 ^ 8) bang argCount
  | .Mcr i => .CallMacroCommand (i % 2 ^ 16)
  | .Request i => .CallRequestCommand (i % 2 ^ 16)

/-- Fallback builtin for an (unreachable) out-of-range index; the Rust code
indexes `builtin_commands[i]` with an index produced by `find_command`, which
is always in range. -/
def defaultBuiltin : BuiltinCommandMeta := ⟨0, 0, false, false, []⟩

/-- The body of `command_next::compile`, defunctionalized over `Phase` and
driven by structural fuel so that concrete runs evaluate by `rfl`/`decide`.
Every loop and every mutual call of the Rust helpers recurses here with one
unit of fuel spent. -/
def compileGo (fuel : Nat) (ph : Phase) (c : Compiler) : CompRes :=
  match fuel with
  | 0 => .noFuel
  | fuel + 1 =>
    match ph with
    | .program =>
      if c.previousToken.kind = .EndOfSource then .ok c
      else (compileGo fuel .mcrDef c).andThen fun c => compileGo fuel .program c
    | .mcrDef =>
      if tokenStr c ≠ mcrKeyword then
        .err ⟨.ExpectedMacroDefinition, c.sourceHandle, c.previousToken.position⟩ c
      else
        (consumeTokenC .Literal c).andThen fun c =>
          let name := tokenStr c
          if name.any (fun b => !(isIdentByte b)) then
            .err ⟨.InvalidMacroName, c.sourceHandle, c.previousToken.position⟩ c
          else
            let nameHash := hashBytes name
            match findCommand c.commands nameHash with
            | some _ =>
              .err ⟨.CommandAlreadyExists, c.sourceHandle, c.previousToken.position⟩ c
            | none =>
              (consumeTokenC .Literal c).andThen fun c =>
                compileGo fuel (.mcrParams nameHash) c
    | .mcrParams nameHash =>
      match c.previousToken.kind with
      | .OpenCurlyBrackets =>
        (nextTokenC c).andThen fun c =>
          compileGo fuel (.mcrBody nameHash c.bindings.length c.vm.ops.length) c
      | .Binding =>
        (declareBindingC c).andThen fun c =>
          (nextTokenC c).andThen fun c => compileGo fuel (.mcrParams nameHash) c
      | _ =>
        .err ⟨.ExpectedToken .OpenCurlyBrackets, c.sourceHandle, c.previousToken.position⟩ c
    | .mcrBody nameHash paramCount opStart =>
      if c.previousToken.kind = .CloseCurlyBrackets then
        (nextTokenC c).andThen fun c =>
          .ok
            { c with
              commands :=
                { c.commands with
                  mcrCommands := c.commands.mcrCommands ++ [⟨nameHash, opStart, paramCount⟩] }
              bindings := [] }
      else
        (compileGo fuel .stmt c).andThen fun c =>
          compileGo fuel (.mcrBody nameHash paramCount opStart) c
    | .stmt =>
      match c.previousToken.kind with
      | .Literal =>
        if tokenStr c = mcrKeyword then .panic c
        else if tokenStr c = retKeyword then .panic c
        else
          (compileGo fuel (.call false) c).andThen fun c =>
            .ok (emitOp c .Pop c.previousToken.position)
      | .OpenParenthesis =>
        (compileGo fuel .expr c).andThen fun c =>
          .ok (emitOp c .Pop c.previousToken.position)
      | .Binding =>
        (declareBindingC c).andThen fun c =>
          (nextTokenC c).andThen fun c =>
            (consumeTokenC .Equals c).andThen fun c => compileGo fuel .exprOrCall c
      | .EndOfLine => nextTokenC c
      | .EndOfSource => .ok c
      | _ => .err ⟨.ExpectedStatement, c.sourceHandle, c.previousToken.position⟩ c
    | .expr =>
      if c.previousToken.kind = .EndOfLine then
        (nextTokenC c).andThen fun c => compileGo fuel .expr c
      else compileGo fuel .exprCore c
    | .exprCore =>
      match c.previousToken.kind with
      | .Literal => emitPushLiteralC c
      | .QuotedLiteral => emitPushLiteralC c
      | .OpenParenthesis =>
        (nextTokenC c).andThen fun c =>
          (compileGo fuel (.call true) c).andThen fun c =>
            consumeTokenC .CloseParenthesis c
      | .Binding =>
        let pos := c.previousToken.position
        match rposition (hashBytes (tokenStr c)) c.bindings with
        | some i =>
          (nextTokenC c).andThen fun c => .ok (emitOp c (.DuplicateAt i) pos)
        | none => .err ⟨.UndeclaredBinding, c.sourceHandle, pos⟩ c
      | _ => .err ⟨.ExpectedExpression, c.sourceHandle, c.previousToken.position⟩ c
    | .call ignoreEol =>
      let pos := c.previousToken.position
      let nameBytes := tokenStr c
      let (nameBytes, bang) :=
        if nameBytes.getLast? = some 33 then (nameBytes.dropLast, true)
        else (nameBytes, false)
      match findCommand c.commands (hashBytes nameBytes) with
      | none => .err ⟨.NoSuchCommand, c.sourceHandle, pos⟩ c
      | some src =>
        (consumeTokenC .Literal c).andThen fun c =>
          compileGo fuel (.callLoop src bang 0 pos ignoreEol) c
    | .callLoop src bang argCount pos ignoreEol =>
      match c.previousToken.kind with
      | .Flag =>
        let flagName := (tokenStr c).drop 1
        let fpos := c.previousToken.position
        (nextTokenC c).andThen fun c =>
          match src with
          | .Builtin i =>
            let flags := (c.commands.builtinCommands.getD i defaultBuiltin).flags
            match firstIdx (fun f => f == flagName) flags with
            | none => .err ⟨.NoSuchFlag, c.sourceHandle, fpos⟩ c
            | some fi =>
              if c.previousToken.kind = .Equals then
                (nextTokenC c).andThen fun c =>
                  (compileGo fuel .expr c).andThen fun c =>
                    compileGo fuel (.callLoop src bang argCount pos ignoreEol)
                      (emitOp c (.PopAsFlag fi) fpos)
              else
                compileGo fuel (.callLoop src bang argCount pos ignoreEol)
                  (emitOp (emitOp c (.PushStringLiteral 0 0) fpos) (.PopAsFlag fi) fpos)
          | _ => .err ⟨.NoSuchFlag, c.sourceHandle, fpos⟩ c
      | .EndOfLine =>
        (nextTokenC c).andThen fun c =>
          if ignoreEol then compileGo fuel (.callLoop src bang argCount pos ignoreEol) c
          else .ok (emitOp c (mkCallOp src bang argCount) pos)
      | .CloseParenthesis => .ok (emitOp c (mkCallOp src bang argCount) pos)
      | .CloseCurlyBrackets => .ok (emitOp c (mkCallOp src bang argCount) pos)
      | .EndOfSource => .ok (emitOp c (mkCallOp src bang argCount) pos)
      | _ =>
        if argCount = 255 then .err ⟨.WrongNumberOfArgs, c.sourceHandle, pos⟩ c
        else
          (compileGo fuel .expr c).andThen fun c =>
            compileGo fuel (.callLoop src bang (argCount + 1) pos ignoreEol) c
    | .exprOrCall =>
      match c.previousToken.kind with
      | .Literal => compileGo fuel (.call false) c
      | _ => compileGo fuel .expr c

/-- `command_next::compile`: prime the lookahead, then run `macro_definition`
until `EndOfSource` (the source's top level accepts ONLY macro definitions;
the `"macro"` and `"return"` statement arms are `todo!()`). -/
def compileProgram (fuel : Nat) (c : Compiler) : CompRes :=
  (nextTokenC c).andThen fun c => compileGo fuel .program c

/-- The prefix of `CommandManager::eval` up to and including the
`compile(&mut compiler)?` call: build a compiler over source handle 0 and
compile.  (The rest of `eval` does not typecheck in the source: it calls
`execute` without its `op_index` argument and reads `.ops`/`.texts`/
`.op_locations` off `compile`'s unit return value.) -/
def evalCompileStage (fuel : Nat) (cc : CommandCollection) (vm : VirtualMachine)
    (source : List Nat) : CompRes :=
  compileProgram fuel (Compiler.init source 0 cc vm)

/-- The error kind of a compile result, when it is an error. -/
def resKind : CompRes → Option CommandErrorKind
  | .err e _ => some e.kind
  | _ => none

/-- The length of the VM value stack left behind by a compile result
(mutations persist through `&mut`, so the state is observable on both the
`ok` and the `err` outcome). -/
def resValueStackLen : CompRes → Option Nat
  | .ok c => some c.vm.value_stack.length
  | .err _ c => some c.vm.value_stack.length
  | _ => none

/-- `command::HISTORY_CAPACITY`. -/
def HISTORY_CAPACITY : Nat := 10

/-- `char::is_ascii_whitespace`: space, horizontal tab, newline, form feed or
carriage return. -/
def isAsciiWs (c : Char) : Bool :=
  c = ' ' || c = '\t' || c = '\n' || c = '\x0c' || c = '\r'

/-- `str::starts_with(|c: char| c.is_ascii_whitespace())`: false on the empty
string, else the test on the first character. -/
def startsWithAsciiWs (s : String) : Bool :=
  match s.data with
  | [] => false
  | c :: _ => isAsciiWs c

/-- `CommandManager::add_to_history` over the history deque, oldest entry
first.  Empty or whitespace-leading entries and an entry equal to the current
tail (`VecDeque::back`) are ignored; otherwise the entry is pushed at the
tail, popping the front first when the deque is full.  `VecDeque::
with_capacity(HISTORY_CAPACITY)` is embedded as a deque of capacity exactly
`HISTORY_CAPACITY`, which is what `self.history.capacity()` is compared
against. -/
def addToHistory (history : List String) (entry : String) : List String :=
  if entry.isEmpty || startsWithAsciiWs entry then history
  else if history.getLast? = some entry then history
  else (if history.length = HISTORY_CAPACITY then history.drop 1 else history) ++ [entry]

/-- `client_event::KeyParseError`. -/
inductive KeyParseError where
  | UnexpectedEnd
  | InvalidCharacter (c : Char)
deriving DecidableEq, Repr

/-- `client_event::Key`. -/
inductive Key where
  | None
  | Backspace
  | Enter
  | Left
  | Right
  | Up
  | Down
  | Home
  | End
  | PageUp
  | PageDown
  | Tab
  | Delete
  | F (n : Nat)
  | Char (c : Char)
  | Ctrl (c : Char)
  | Alt (c : Char)
  | Esc
deriving DecidableEq, Repr

/-- The `consume_str!` macro: match the expected characters one by one,
failing with `UnexpectedEnd` on exhausted input and `InvalidCharacter` on a
mismatch; returns the remaining input. -/
def consumeChars : List Char → List Char → Except KeyParseError (List Char)
  | [], cs => .ok cs
  | t :: ts, cs =>
    match cs with
    | [] => .error .UnexpectedEnd
    | c :: cs' => if c = t then consumeChars ts cs' else .error (.InvalidCharacter c)

/-- `char::to_digit(10)`. -/
def charToDigit? (c : Char) : Option Nat :=
  if c.isDigit then some (c.toNat - 48) else none

/-- The `'f'` arm of `Key::parse` (after `<f` has been read): a first
character `1` is followed by `>` (F1) or by `0`/`1`/`2` and `>` (F10-F12);
any other first character has `>` consumed first and is then converted with
`to_digit(10)`, so every single decimal digit - including `0` - yields a key. -/
def parseFKey (cs : List Char) : Except KeyParseError (Key × List Char) :=
  match cs with
  | [] => .error .UnexpectedEnd
  | c1 :: r1 =>
    if c1 = '1' then
      match r1 with
      | [] => .error .UnexpectedEnd
      | c2 :: r2 =>
        if c2 = '>' then .ok (.F 1, r2)
        else if c2 = '0' then
          match consumeChars ['>'] r2 with
          | .ok r3 => .ok (.F 10, r3)
          | .error e => .error e
        else if c2 = '1' then
          match consumeChars ['>'] r2 with
          | .ok r3 => .ok (.F 11, r3)
          | .error e => .error e
        else if c2 = '2' then
          match consumeChars ['>'] r2 with
          | .ok r3 => .ok (.F 12, r3)
          | .error e => .error e
        else .error (.InvalidCharacter c2)
    else
      match r1 with
      | [] => .error .UnexpectedEnd
      | c2 :: r2 =>
        if c2 = '>' then
          match charToDigit? c1 with
          | some n => .ok (.F n, r2)
          | none => .error (.InvalidCharacter c1)
        else .error (.InvalidCharacter c2)

/-- The `'c'` / `'a'` arms of `Key::parse` (after `<c` or `<a`): consume `-`,
read one ASCII-alphanumeric character, consume `>`. -/
def parseModKey (mk : Char → Key) (cs : List Char) : Except KeyParseError (Key × List Char) :=
  match cs with
  | [] => .error .UnexpectedEnd
  | d :: r1 =>
    if d = '-' then
      match r1 with
      | [] => .error .UnexpectedEnd
      | c :: r2 =>
        if c.isAlphanum then
          match r2 with
          | [] => .error .UnexpectedEnd
          | g :: r3 => if g = '>' then .ok (mk c, r3) else .error (.InvalidCharacter g)
        else .error (.InvalidCharacter c)
    else .error (.InvalidCharacter d)

/-- The `'<'` arm of `Key::parse`: dispatch on the character after `<`. -/
def parseAngleKey (cs : List Char) : Except KeyParseError (Key × List Char) :=
  match cs with
  | [] => .error .UnexpectedEnd
  | c :: rest =>
    if c = 'b' then
      match consumeChars "ackspace>".data rest with
      | .ok r => .ok (.Backspace, r)
      | .error e => .error e
    else if c = 's' then
      match consumeChars "pace>".data rest with
      | .ok r => .ok (.Char ' ', r)
      | .error e => .error e
    else if c = 'e' then
      match rest with
      | [] => .error .UnexpectedEnd
      | c2 :: r2 =>
        if c2 = 'n' then
          match r2 with
          | [] => .error .UnexpectedEnd
          | c3 :: r3 =>
            if c3 = 't' then
              match consumeChars "er>".data r3 with
              | .ok r => .ok (.Enter, r)
              | .error e => .error e
            else if c3 = 'd' then
              match consumeChars ['>'] r3 with
              | .ok r => .ok (.End, r)
              | .error e => .error e
            else .error (.InvalidCharacter c3)
        else if c2 = 's' then
          match consumeChars "c>".data r2 with
          | .ok r => .ok (.Esc, r)
          | .error e => .error e
        else .error (.InvalidCharacter c2)
    else if c = 'l' then
      match consumeChars "eft>".data rest with
      | .ok r => .ok (.Left, r)
      | .error e => .error e
    else if c = 'r' then
      match consumeChars "ight>".data rest with
      | .ok r => .ok (.Right, r)
      | .error e => .error e
    else if c = 'u' then
      match consumeChars "p>".data rest with
      | .ok r => .ok (.Up, r)
      | .error e => .error e
    else if c = 'd' then
      match rest with
      | [] => .error .UnexpectedEnd
      | c2 :: r2 =>
        if c2 = 'o' then
          match consumeChars "wn>".data r2 with
          | .ok r => .ok (.Down, r)
          | .error e => .error e
        else if c2 = 'e' then
          match consumeChars "lete>".data r2 with
          | .ok r => .ok (.Delete, r)
          | .error e => .error e
        else .error (.InvalidCharacter c2)
    else if c = 'h' then
      match consumeChars "ome>".data rest with
      | .ok r => .ok (.Home, r)
      | .error e => .error e
    else if c = 'p' then
      match consumeChars "age".data rest with
      | .ok r2 =>
        match r2 with
        | [] => .error .UnexpectedEnd
        | c2 :: r3 =>
          if c2 = 'u' then
            match consumeChars "p>".data r3 with
            | .ok r => .ok (.PageUp, r)
            | .error e => .error e
          else if c2 = 'd' then
            match consumeChars "own>".data r3 with
            | .ok r => .ok (.PageDown, r)
            | .error e => .error e
          else .error (.InvalidCharacter c2)
      | .error e => .error e
    else if c = 't' then
      match consumeChars "ab>".data rest with
      | .ok r => .ok (.Tab, r)
      | .error e => .error e
    else if c = 'f' then parseFKey rest
    else if c = 'c' then parseModKey .Ctrl rest
    else if c = 'a' then parseModKey .Alt rest
    else .error (.InvalidCharacter c)

/-- `Key::parse` over a character iterator embedded as a list; returns the
parsed key and the unconsumed remainder. -/
def keyParse (cs : List Char) : Except KeyParseError (Key × List Char) :=
  match cs with
  | [] => .error .UnexpectedEnd
  | c :: rest =>
    if c = '\\' then
      match rest with
      | [] => .error .UnexpectedEnd
      | c2 :: r2 =>
        if c2 = '\\' then .ok (.Char '\\', r2)
        else if c2 = '<' then .ok (.Char '<', r2)
        else .error (.InvalidCharacter c2)
    else if c = '<' then parseAngleKey rest
    else if c.toNat < 128 then .ok (.Char c, rest)
    else .error (.InvalidCharacter c)

/-- `mode::ModeKind`. -/
inductive ModeKind where
  | Normal
  | Insert
  | Command
  | ReadLine
  | Picker
deriving DecidableEq, Repr

/-- `ModeKind::default()`. -/
def ModeKind.default : ModeKind := .Normal

/-- `mode::ModeOperation` (`ExecuteMacro`'s register key embedded as `Nat`). -/
inductive ModeOperation where
  | Pending
  | Quit
  | QuitAll
  | ExecuteMacro (registerKey : Nat)
deriving DecidableEq, Repr

/-- One lifecycle-hook invocation, for observing the order of calls made by
`Mode::change_to`: which hook ran on which mode, and - for `enter` - the mode
kind stored in the editor at the moment the hook ran. -/
inductive HookEvent where
  | exit (k : ModeKind)
  | enter (k : ModeKind) (storedKind : ModeKind)
deriving DecidableEq, Repr

/-- The editor slice `Mode::change_to` works on: the stored mode kind plus an
instrumentation trace of the hook invocations. -/
structure ModeEditor where
  kind : ModeKind
  trace : List HookEvent
deriving DecidableEq, Repr

/-- Invocation of a mode's `on_exit` (each mode's hook appends its event). -/
def fireOnExit (k : ModeKind) (e : ModeEditor) : ModeEditor :=
  { e with trace := e.trace ++ [.exit k] }

/-- Invocation of a mode's `on_enter`; records the currently stored kind. -/
def fireOnEnter (k : ModeKind) (e : ModeEditor) : ModeEditor :=
  { e with trace := e.trace ++ [.enter k e.kind] }

/-- `Mode::change_to`: dispatch `on_exit` on the current kind, store the new
kind, then dispatch `on_enter` on the (now stored) new kind. -/
def changeTo (e : ModeEditor) (next : ModeKind) : ModeEditor :=
  let e :=
    match e.kind with
    | .Normal => fireOnExit .Normal e
    | .Insert => fireOnExit .Insert e
    | .Command => fireOnExit .Command e
    | .ReadLine => fireOnExit .ReadLine e
    | .Picker => fireOnExit .Picker e
  let e := { e with kind := next }
  match e.kind with
  | .Normal => fireOnEnter .Normal e
  | .Insert => fireOnEnter .Insert e
  | .Command => fireOnEnter .Command e
  | .ReadLine => fireOnEnter .ReadLine e
  | .Picker => fireOnEnter .Picker e

/-- `editor_utils::MessageKind`. -/
inductive MessageKind where
  | Info
  | Error
deriving DecidableEq, Repr

/-- `editor_utils::StatusBar`: current kind and message. -/
structure StatusBarModel where
  kind : MessageKind
  message : String
deriving DecidableEq, Repr

/-- The outcome of `CommandManager::eval_command` as consumed by the
`Submitted` arm of command mode.  Modelled from the spec: the `lib` crate's
command module is not among the sources; section 4.8 lists the outcomes
`Ok(None)`, `Ok(Some(Quit))`, `Ok(Some(QuitAll))`, `Err(Aborted)` and
`Err(other)` (the latter carrying a display string). -/
inductive EvalOutcome where
  | okNone
  | okQuit
  | okQuitAll
  | errAborted
  | errOther (display : String)
deriving DecidableEq, Repr

/-- The editor slice touched by the `Submitted` arm of command mode's
`on_client_keys`. -/
structure CmdEditor where
  history : List String
  statusBar : StatusBarModel
  modeKind : ModeKind
  readLineInput : String
deriving DecidableEq, Repr

/-- The status-bar message of the over-long-input rejection:
`"command is too long. max is {} bytes. got {}"` with the buffer size and the
input length. -/
def tooLongMsg (got : Nat) : String :=
  "command is too long. max is " ++ toString 256 ++ " bytes. got " ++ toString got

/-- The `Mode::change_to(ctx, ModeKind::default())` call at the end of the
`Submitted` arm, restricted to the modelled editor slice: command mode's
`on_exit` clears the read-line input, the stored kind becomes `Normal`
(Normal's hooks, whose module is not among the sources, touch none of these
fields). -/
def changeToDefaultCmd (e : CmdEditor) : CmdEditor :=
  { e with modeKind := .Normal, readLineInput := "" }

/-- The `ReadLinePoll::Submitted` arm of command mode's `on_client_keys`
(lib/mode/command.rs lines 84-133), parameterized over the `eval_command`
function.  Steps, in source order: history add when the input does not start
with ASCII whitespace; rejection with a status-bar error when the input is
longer than the 256-byte buffer (returning `None` without calling eval);
otherwise eval, outcome mapping, and - when the editor is still in command
mode - the switch back to the default mode.  The third component records
whether `eval_command` was invoked. -/
def onSubmitted (evalFn : CmdEditor → String → CmdEditor × EvalOutcome)
    (e0 : CmdEditor) : CmdEditor × Option ModeOperation × Bool :=
  let input := e0.readLineInput
  let e1 :=
    if !(startsWithAsciiWs input) then
      { e0 with history := addToHistory e0.history input }
    else e0
  if 256 < input.utf8ByteSize then
    ({ e1 with statusBar := ⟨.Error, tooLongMsg input.utf8ByteSize⟩ }, none, false)
  else
    let (e2, outcome) := evalFn e1 input
    let (e3, op) :=
      match outcome with
      | .okNone => (e2, (none : Option ModeOperation))
      | .errAborted => (e2, none)
      | .okQuit => (e2, some .Quit)
      | .okQuitAll => (e2, some .QuitAll)
      | .errOther msg => ({ e2 with statusBar := ⟨.Error, msg⟩ }, none)
    let e4 := if e3.modeKind = .Command then changeToDefaultCmd e3 else e3
    (e4, op, true)

/-! Concrete fixtures used by the theorems below. -/

/-- The tokenizer-scenario source. -/
def c6Source : List Nat := asciiBytes "cmd $binding -flag=value = not-flag"

/-- A macro whose body re-declares its own parameter name, so two live
bindings share one name: `macro m $a { $a = $a }` (with the body on its own
line). -/
def c10Source : List Nat := asciiBytes "macro m $a \x7b\n$a = $a\n\x7d"

/-- An execution state about to run `Op::Return`: one frame with arena
watermark 1 and stack watermark 0, arena `"abc"`, and a top value denoting the
byte range `[2, 3)` (the text `"c"`), which lies strictly above the
watermark. -/
def c1ExecState : ExecState :=
  { vm :=
      { ops := []
        texts := [97, 98, 99]
        value_stack := [⟨2, 3⟩]
        flag_stack := []
        frames := [⟨7, 1, 0⟩]
        op_locations := [] }
    opIndex := 0
    startStackIndex := 0 }

/-- A compiler positioned on the quoted literal `'\n'` (backslash plus the
letter `n`). -/
def c3QuotedN : Compiler :=
  { tok := TokState.new (asciiBytes "'\\n'")
    sourceHandle := 0
    commands := CommandCollection.empty
    vm := VirtualMachine.empty
    previousToken := ⟨.QuotedLiteral, 0, 4, BufferPosition.zero⟩
    bindings := [] }

/-- A compiler positioned on the quoted literal `'\\'` (backslash
backslash). -/
def c3QuotedBB : Compiler :=
  { tok := TokState.new [39, 92, 92, 39]
    sourceHandle := 0
    commands := CommandCollection.empty
    vm := VirtualMachine.empty
    previousToken := ⟨.QuotedLiteral, 0, 4, BufferPosition.zero⟩
    bindings := [] }

/-- A compiler positioned on the binding token `$a`, with `$a` declared once
in the binding table. -/
def cBindFix : Compiler :=
  { tok := { source := asciiBytes "$a", index := 2, position := ⟨0, 2⟩ }
    sourceHandle := 0
    commands := CommandCollection.empty
    vm := VirtualMachine.empty
    previousToken := ⟨.Binding, 0, 2, BufferPosition.zero⟩
    bindings := [hashBytes (asciiBytes "$a")] }

/-- The ops of a compile result, when the result carries a state. -/
def resOps : CompRes → Option (List Op)
  | .ok c => some c.vm.ops
  | .err _ c => some c.vm.ops
  | _ => none

/-- Whether a compile result is a success. -/
def resIsOk : CompRes → Bool
  | .ok _ => true
  | _ => false

/-- A command-mode editor whose read-line input is 257 bytes of `a`. -/
def longInputEditor : CmdEditor :=
  { history := []
    statusBar := ⟨.Info, ""⟩
    modeKind := .Command
    readLineInput := String.mk (List.replicate 257 'a') }

/-- A command-mode editor whose read-line input is the short command `q`. -/
def shortInputEditor : CmdEditor :=
  { history := []
    statusBar := ⟨.Info, ""⟩
    modeKind := .Command
    readLineInput := "q" }

/-- An eval function that leaves the editor unchanged and reports
`Ok(None)`. -/
def constEvalFn : CmdEditor → String → CmdEditor × EvalOutcome :=
  fun e _ => (e, .okNone)

/-! Theorems settling the claims. -/

/-- Claim C1: on an `Op::Return` step with a non-empty frame stack, popped
frame `f = {op_index: 7, texts_len: 1, stack_len: 0}` and top value
`v = [2, 3)` (length `L = 1`) lying above `f.texts_len`, the claim says the
pushed value is exactly the range `[f.texts_len, f.texts_len + L) = [1, 2)`,
preserving `v`'s text.  The code instead pushes `{start: f.texts_len,
end: L} = [1, 1)`, whose text (empty) differs from `v`'s pre-step text
(`"c"`): the `end` field is assigned the length, not `start + length`
(`end: return_text_len as _`). -/
theorem returnStep_relocation_bug_c1 :
    stepReturn c1ExecState =
      .next
        { vm :=
            { ops := []
              texts := [97, 99]
              value_stack := [⟨1, 1⟩]
              flag_stack := []
              frames := []
              op_locations := [] }
          opIndex := 7
          startStackIndex := 0 } ∧
    (⟨1, 1⟩ : StackValue) ≠ ⟨1, 1 + (3 - 2)⟩ ∧
    valueText
        { ops := []
          texts := [97, 99]
          value_stack := [⟨1, 1⟩]
          flag_stack := []
          frames := []
          op_locations := [] } ⟨1, 1⟩ ≠
      valueText c1ExecState.vm ⟨2, 3⟩ := by
  refine ⟨by decide, by decide, by decide⟩

/-- Claim C2: `eval` is claimed to always leave exactly one value on the value
stack.  On the source `"x"` the compile stage inside `eval` fails with
`ExpectedMacroDefinition` (the top level accepts only macro definitions), the
`?` operator returns the error immediately with no reset, and the value stack
is left with zero values, not one.  (The remainder of `eval` does not even
typecheck in the source, as recorded on `evalCompileStage`.) -/
theorem evalStage_error_state_c2 :
    resKind (evalCompileStage 100 CommandCollection.empty VirtualMachine.empty
        (asciiBytes "x")) =
      some .ExpectedMacroDefinition ∧
    resValueStackLen (evalCompileStage 100 CommandCollection.empty VirtualMachine.empty
        (asciiBytes "x")) =
      some 0 := by
  refine ⟨by decide, by decide⟩

/-- Claim C3: the claim says the compiler decodes `\n` (backslash plus the
letter `n`) to byte 0x0A and `\\` to a single backslash.  The code's decode
loop instead matches the CONTROL BYTES 0x0A/0x0D/0x09/0x00 after a backslash
(the patterns are `b'\n'` etc.), and never consumes the matched escape byte:
emitting the quoted literal `'\n'` fails with `InvalidLiteralEscaping`, and so
does `'\\'` (after its first backslash is replaced, the second is scanned
again as the start of a new escape pair at the end of input). -/
theorem escapeDecode_bug_c3 :
    resKind (emitPushLiteralC c3QuotedN) = some .InvalidLiteralEscaping ∧
    resKind (emitPushLiteralC c3QuotedBB) = some .InvalidLiteralEscaping ∧
    decodeGo [92, 110] = ([], false) ∧
    decodeGo [92, 92] = ([92], false) ∧
    decodeGo [92, 39, 97] = ([39, 39, 97], true) := by
  refine ⟨by decide, by decide, by decide, by decide, by decide⟩

/-- Claim C4: compiling the empty source is claimed to produce
`[PushStringLiteral{0,0}, Return]`.  The code's `compile` primes the
lookahead, sees `EndOfSource` at once and returns without emitting anything:
the op array stays empty, and no wrapper is appended for any top-level
program. -/
theorem compileEmpty_ops_c4 :
    resIsOk (compileProgram 100
        (Compiler.init (asciiBytes "") 0 CommandCollection.empty VirtualMachine.empty)) =
      true ∧
    resOps (compileProgram 100
        (Compiler.init (asciiBytes "") 0 CommandCollection.empty VirtualMachine.empty)) =
      some [] ∧
    ([] : List Op) ≠ [.PushStringLiteral 0 0, .Return] := by
  refine ⟨by decide, by decide, by decide⟩

/-- Claim C6: tokenizing `cmd $binding -flag=value = not-flag` yields
`Literal, Binding, Flag, Equals, Literal, Equals, Literal` followed by
`EndOfSource`, at columns 0, 4, 13, 18, 19, 25, 27 on line 0, and the token
ranges spell exactly the expected strings. -/
theorem tokenize_scenario_c6 :
    tokenizeAllGo 100 (TokState.new c6Source) [] =
      some (.ok
        [⟨.Literal, 0, 3, ⟨0, 0⟩⟩,
         ⟨.Binding, 4, 12, ⟨0, 4⟩⟩,
         ⟨.Flag, 13, 18, ⟨0, 13⟩⟩,
         ⟨.Equals, 18, 19, ⟨0, 18⟩⟩,
         ⟨.Literal, 19, 24, ⟨0, 19⟩⟩,
         ⟨.Equals, 25, 26, ⟨0, 25⟩⟩,
         ⟨.Literal, 27, 35, ⟨0, 27⟩⟩,
         ⟨.EndOfSource, 35, 35, ⟨0, 35⟩⟩]) ∧
    sliceBytes c6Source 0 3 = asciiBytes "cmd" ∧
    sliceBytes c6Source 4 12 = asciiBytes "$binding" ∧
    sliceBytes c6Source 13 18 = asciiBytes "-flag" ∧
    sliceBytes c6Source 19 24 = asciiBytes "value" ∧
    sliceBytes c6Source 27 35 = asciiBytes "not-flag" := by
  refine ⟨by rfl, by decide, by decide, by decide, by decide, by decide⟩

/-- Claim C7, counterexample: the claim says parsing fails on `<f0>`, but
`Key::parse` accepts it and returns `F(0)` (the non-`1` digit branch consumes
`>` and converts with `to_digit(10)`, which accepts `0`). -/
theorem keyParse_f0_counterexample_c7 :
    keyParse ['<', 'f', '0', '>'] = .ok (.F 0, []) := by
  rfl

/-- One history insertion keeps the length within capacity. -/
theorem addToHistory_len_le (h : List String) (e : String) (hh : h.length ≤ 10) :
    (addToHistory h e).length ≤ 10 := by
  unfold addToHistory HISTORY_CAPACITY
  split
  · exact hh
  · split
    · exact hh
    · split
      · rename_i hlen
        simp only [List.length_append, List.length_drop, List.length_singleton, hlen]
        omega
      · rename_i hlen
        simp only [List.length_append, List.length_singleton]
        omega

/-- Any sequence of history insertions keeps the length within capacity. -/
theorem addToHistory_foldl_le (es : List String) (acc : List String)
    (ha : acc.length ≤ 10) : (es.foldl addToHistory acc).length ≤ 10 := by
  induction es generalizing acc with
  | nil => simpa using ha
  | cons x xs ih => exact ih _ (addToHistory_len_le acc x ha)

/-- Claim C5: `add_to_history` ignores the empty entry, a whitespace-leading
entry and an entry equal to the current tail; any other entry is appended at
the tail, dropping the oldest entry when the history already holds
`HISTORY_CAPACITY = 10` entries; and the history length never exceeds 10 over
any sequence of insertions starting from the empty history. -/
theorem addToHistory_spec_c5 (h : List String) (e : String) :
    addToHistory h "" = h ∧
    (startsWithAsciiWs e = true → addToHistory h e = h) ∧
    (h.getLast? = some e → addToHistory h e = h) ∧
    (e ≠ "" → startsWithAsciiWs e = false → ¬h.getLast? = some e →
      addToHistory h e = (if h.length = 10 then h.drop 1 else h) ++ [e]) ∧
    (h.length ≤ 10 → (addToHistory h e).length ≤ 10) ∧
    (∀ es : List String, (es.foldl addToHistory []).length ≤ 10) := by
  refine ⟨?_, ?_, ?_, ?_, fun hh => addToHistory_len_le h e hh,
    fun es => addToHistory_foldl_le es [] (by simp)⟩
  · unfold addToHistory
    rw [if_pos (by decide : ("".isEmpty || startsWithAsciiWs "") = true)]
  · intro hws
    unfold addToHistory
    rw [hws]
    simp
  · intro hl
    unfold addToHistory
    by_cases hg : (e.isEmpty || startsWithAsciiWs e) = true
    · rw [if_pos hg]
    · rw [if_neg hg, if_pos hl]
  · intro hne hws hnl
    have he : e.isEmpty = false := by
      rw [Bool.eq_false_iff]
      intro hcon
      exact hne ((String.isEmpty_iff e).mp hcon)
    unfold addToHistory HISTORY_CAPACITY
    rw [he, hws]
    simp [hnl]

/-- Witness for claim C5: inserting `"b"` after `"a"` appends it at the tail
and respects the capacity bound. -/
theorem addToHistory_witness_c5 :
    addToHistory ["a"] "b" = ["a", "b"] ∧ (addToHistory ["a"] "b").length ≤ 10 := by
  have H := addToHistory_spec_c5 ["a"] "b"
  refine ⟨?_, H.2.2.2.2.1 (by decide)⟩
  have h4 := H.2.2.2.1 (by decide) (by decide) (by decide)
  simpa using h4

/-- Claim C9: every `Mode::change_to(next)` fires exactly one `on_exit`, on
the previously stored mode, then exactly one `on_enter`, on `next`, with the
stored kind already equal to `next` when `on_enter` runs - also when `next`
equals the previous mode. -/
theorem changeTo_hooks_c9 (e : ModeEditor) (next : ModeKind) :
    (changeTo e next).trace = e.trace ++ [.exit e.kind, .enter next next] ∧
    (changeTo e next).kind = next := by
  cases e with
  | mk k tr => cases k <;> cases next <;> simp [changeTo, fireOnExit, fireOnEnter]

/-- Claim C8: on a `Submitted` poll, the input is first passed to history add
(when it does not start with ASCII whitespace); an input longer than 256
bytes then only writes the too-long error to the status bar and returns no
`ModeOperation`, without invoking eval and leaving all other editor state
unchanged; an input of at most 256 bytes proceeds to evaluation. -/
theorem onSubmitted_spec_c8 (f : CmdEditor → String → CmdEditor × EvalOutcome)
    (e : CmdEditor) :
    (256 < e.readLineInput.utf8ByteSize →
      onSubmitted f e =
        ({ e with
            history :=
              if !(startsWithAsciiWs e.readLineInput) then
                addToHistory e.history e.readLineInput
              else e.history
            statusBar := ⟨.Error, tooLongMsg e.readLineInput.utf8ByteSize⟩ },
          none, false)) ∧
    (e.readLineInput.utf8ByteSize ≤ 256 → (onSubmitted f e).2.2 = true) := by
  constructor
  · intro hlen
    unfold onSubmitted
    by_cases hws : startsWithAsciiWs e.readLineInput
    · simp [hws, if_pos hlen]
    · simp [hws, if_pos hlen]
  · intro hlen
    unfold onSubmitted
    rw [if_neg (by omega)]

set_option maxRecDepth 10000 in
/-- Witness for claim C8: a 257-byte input is rejected without invoking eval,
a 1-byte input reaches eval. -/
theorem onSubmitted_witness_c8 :
    (onSubmitted constEvalFn longInputEditor).2.2 = false ∧
    (onSubmitted constEvalFn shortInputEditor).2.2 = true := by
  have H1 := (onSubmitted_spec_c8 constEvalFn longInputEditor).1 (by decide)
  have H2 := (onSubmitted_spec_c8 constEvalFn shortInputEditor).2 (by decide)
  exact ⟨by rw [H1], H2⟩

/-- If `rposition` fails, no index holds the sought value. -/
theorem rposition_none (h : Nat) (bs : List Nat) (hn : rposition h bs = none) :
    ∀ j, bs.get? j ≠ some h := by
  induction bs with
  | nil => intro j; simp
  | cons x xs ih =>
    unfold rposition at hn
    cases hr : rposition h xs with
    | some k => rw [hr] at hn; simp at hn
    | none =>
      rw [hr] at hn
      by_cases hx : x == h
      · rw [if_pos hx] at hn; simp at hn
      · intro j
        cases j with
        | zero =>
          simp only [List.get?_cons_zero]
          intro hcon
          simp only [Option.some.injEq] at hcon
          exact absurd (by simp [hcon]) hx
        | succ j' =>
          simp only [List.get?_cons_succ]
          exact ih hr j'

/-- `rposition` finds an index holding the sought value, and the LAST such
index: everything later differs. -/
theorem rposition_spec (h : Nat) (bs : List Nat) (i : Nat)
    (hi : rposition h bs = some i) :
    bs.get? i = some h ∧ ∀ j, i < j → bs.get? j ≠ some h := by
  induction bs generalizing i with
  | nil => simp [rposition] at hi
  | cons x xs ih =>
    unfold rposition at hi
    cases hr : rposition h xs with
    | some k =>
      rw [hr] at hi
      simp only [Option.some.injEq] at hi
      subst hi
      obtain ⟨hk1, hk2⟩ := ih k hr
      constructor
      · simpa using hk1
      · intro j hj
        cases j with
        | zero => omega
        | succ j' =>
          simp only [List.get?_cons_succ]
          exact hk2 j' (by omega)
    | none =>
      rw [hr] at hi
      by_cases hx : x == h
      · rw [if_pos hx] at hi
        simp only [Option.some.injEq] at hi
        subst hi
        constructor
        · have hxe : x = h := by simpa using hx
          simp [hxe]
        · intro j hj
          cases j with
          | zero => omega
          | succ j' =>
            simp only [List.get?_cons_succ]
            intro hcon
            -- a later occurrence would have made `rposition` on the tail succeed
            exact absurd hcon (rposition_none h xs hr j')
      · rw [if_neg hx] at hi
        exact absurd hi (by simp)

/-- Claim C10: a `$name` expression resolves to the most recently declared
live binding with that name: `find_binding_stack_index_from_previous_token`
is `rposition`, which returns the largest matching index; the `Binding` arm
of `expression` emits `DuplicateAt` at exactly that index; and on the macro
`macro m $a { $a = $a }`, where the parameter `$a` is shadowed by the body's
re-declaration, the emitted op is `DuplicateAt 1`, not `DuplicateAt 0`. -/
theorem bindingShadowing_c10 :
    (∀ (h : Nat) (bs : List Nat) (i : Nat), rposition h bs = some i →
      bs.get? i = some h ∧ ∀ j, i < j → bs.get? j ≠ some h) ∧
    (∀ (fuel : Nat) (c : Compiler) (i : Nat),
      c.previousToken.kind = .Binding →
      rposition (hashBytes (tokenStr c)) c.bindings = some i →
      compileGo (fuel + 1) .exprCore c =
        (nextTokenC c).andThen fun c2 =>
          .ok (emitOp c2 (.DuplicateAt i) c.previousToken.position)) ∧
    resOps (compileProgram 100
        (Compiler.init c10Source 0 CommandCollection.empty VirtualMachine.empty)) =
      some [.DuplicateAt 1] := by
  refine ⟨rposition_spec, ?_, by decide⟩
  intro fuel c i hk hr
  conv_lhs => rw [compileGo]
  simp only [hk, hr]

/-- Witness for claim C10: with two identical binding hashes, index 1 is the
match; on a compiler positioned at a once-declared `$a`, the `Binding`
expression arm emits `DuplicateAt 0`. -/
theorem bindingShadowing_witness_c10 :
    [5, 5].get? 1 = some 5 ∧
    compileGo 1 .exprCore cBindFix =
      (nextTokenC cBindFix).andThen fun c2 =>
        .ok (emitOp c2 (.DuplicateAt 0) cBindFix.previousToken.position) := by
  have H := bindingShadowing_c10
  exact ⟨(H.1 5 [5, 5] 1 (by decide)).1, H.2.1 0 cBindFix 0 (by rfl) (by decide)⟩

/-- `Key::parse` on `'<' :: 'f' :: rest` runs the `'f'` arm. -/
theorem keyParse_angle_f (cs : List Char) :
    keyParse ('<' :: 'f' :: cs) = parseFKey cs := rfl

/-- Claim C7 (amended): `Key::parse` on `"<fN>"` succeeds exactly when `N` is
a single decimal digit `0`-`9` (returning `F(digit)`, including `F(0)`) or
exactly `10`, `11` or `12`; every other character sequence after `<f` fails
(with `UnexpectedEnd` or `InvalidCharacter`, the only error kinds). -/
theorem keyParse_fN_amended_c7 :
    (∀ (d : Char) (r : List Char), d.isDigit = true →
      keyParse ('<' :: 'f' :: d :: '>' :: r) = .ok (.F (d.toNat - 48), r)) ∧
    (∀ (x : Char) (r : List Char), x = '0' ∨ x = '1' ∨ x = '2' →
      keyParse ('<' :: 'f' :: '1' :: x :: '>' :: r) =
        .ok (.F (10 + (x.toNat - 48)), r)) ∧
    (∀ (cs : List Char) (k : Key) (rest : List Char),
      keyParse ('<' :: 'f' :: cs) = .ok (k, rest) →
      (∃ d r, cs = d :: '>' :: r ∧ d.isDigit = true ∧
        k = .F (d.toNat - 48) ∧ rest = r) ∨
      (∃ x r, cs = '1' :: x :: '>' :: r ∧ (x = '0' ∨ x = '1' ∨ x = '2') ∧
        k = .F (10 + (x.toNat - 48)) ∧ rest = r)) := by
  refine ⟨?_, ?_, ?_⟩
  · intro d r hd
    rw [keyParse_angle_f]
    by_cases h1 : d = '1'
    · subst h1
      rfl
    · simp [parseFKey, h1, charToDigit?, hd]
  · intro x r hx
    rw [keyParse_angle_f]
    rcases hx with rfl | rfl | rfl <;> rfl
  · intro cs k rest hok
    rw [keyParse_angle_f] at hok
    match cs with
    | [] => simp [parseFKey] at hok
    | c1 :: r1 =>
      by_cases h1 : c1 = '1'
      · subst h1
        match r1 with
        | [] => simp [parseFKey] at hok
        | c2 :: r2 =>
          by_cases hgt : c2 = '>'
          · subst hgt
            left
            refine ⟨'1', r2, rfl, by decide, ?_, ?_⟩ <;>
              simp [parseFKey] at hok <;> simp [hok.1, hok.2]
          · by_cases h0 : c2 = '0'
            · subst h0
              right
              match r2 with
              | [] => simp [parseFKey, consumeChars] at hok
              | g :: r3 =>
                by_cases hg : g = '>'
                · subst hg
                  simp [parseFKey, consumeChars] at hok
                  exact ⟨'0', r3, rfl, by decide, by simp [← hok.1], by simp [hok.2]⟩
                · simp [parseFKey, consumeChars, hg] at hok
            · by_cases h11 : c2 = '1'
              · subst h11
                right
                match r2 with
                | [] => simp [parseFKey, consumeChars] at hok
                | g :: r3 =>
                  by_cases hg : g = '>'
                  · subst hg
                    simp [parseFKey, consumeChars] at hok
                    exact ⟨'1', r3, rfl, by decide, by simp [← hok.1], by simp [hok.2]⟩
                  · simp [parseFKey, consumeChars, hg] at hok
              · by_cases h12 : c2 = '2'
                · subst h12
                  right
                  match r2 with
                  | [] => simp [parseFKey, consumeChars] at hok
                  | g :: r3 =>
                    by_cases hg : g = '>'
                    · subst hg
                      simp [parseFKey, consumeChars] at hok
                      exact ⟨'2', r3, rfl, by decide, by simp [← hok.1], by simp [hok.2]⟩
                    · simp [parseFKey, consumeChars, hg] at hok
                · simp [parseFKey, hgt, h0, h11, h12] at hok
      · match r1 with
        | [] => simp [parseFKey, h1] at hok
        | c2 :: r2 =>
          by_cases hgt : c2 = '>'
          · subst hgt
            by_cases hd : c1.isDigit
            · left
              simp [parseFKey, h1, charToDigit?, hd] at hok
              exact ⟨c1, r2, rfl, hd, by simp [← hok.1], by simp [hok.2]⟩
            · simp [parseFKey, h1, charToDigit?, hd] at hok
          · simp [parseFKey, h1, hgt] at hok

/-- Witness for claim C7: `<f5>` parses to `F(5)` and `<f12>` to `F(12)`. -/
theorem keyParse_fN_witness_c7 :
    keyParse ['<', 'f', '5', '>'] = .ok (.F 5, []) ∧
    keyParse ['<', 'f', '1', '2', '>'] = .ok (.F 12, []) := by
  have H := keyParse_fN_amended_c7
  have h5 := H.1 '5' [] (by decide)
  have h12 := H.2.1 '2' [] (by decide)
  exact ⟨by simpa using h5, by simpa using h12⟩

end Pepper
